import Mathlib

/-
Shallow embedding of the OpenTelemetry trace proxy in `otel_proxy.go`
(package odj).  JSON payloads decoded by `json.Unmarshal` into
`map[string]any` are modelled by the nested inductive type `Json`;
Go byte slices are lists of naturals below 256; Go's
`hex.DecodeString` and `base64.StdEncoding.EncodeToString` are modelled
as executable functions on character lists.
-/

/-- Generic JSON tree: the `map[string]any` / `[]any` / `string` / number /
bool / null shapes produced by `json.Unmarshal` in the JSON branch of
`(*otelProxy).traces`.  Objects are association lists of string keys. -/
inductive Json where
  | str : String → Json
  | num : Int → Json
  | bool : Bool → Json
  | null : Json
  | arr : List Json → Json
  | obj : List (String × Json) → Json

/-- Value of one hexadecimal digit character, as in Go's
`encoding/hex.fromHexChar`: digits `0-9`, lower `a-f`, upper `A-F`. -/
def hexDigitValue (c : Char) : Option Nat :=
  if '0' ≤ c ∧ c ≤ '9' then some (c.toNat - '0'.toNat)
  else if 'a' ≤ c ∧ c ≤ 'f' then some (c.toNat - 'a'.toNat + 10)
  else if 'A' ≤ c ∧ c ≤ 'F' then some (c.toNat - 'A'.toNat + 10)
  else none

/-- Hexadecimal decoding of a character list, two digits per output byte;
fails on an odd number of characters or any non-hex character, exactly as
Go's `hex.DecodeString` fails there. -/
def hexDecodeChars : List Char → Option (List Nat)
  | [] => some []
  | [_] => none
  | c1 :: c2 :: rest => do
    let h ← hexDigitValue c1
    let l ← hexDigitValue c2
    let tail ← hexDecodeChars rest
    pure ((h * 16 + l) :: tail)

/-- Model of Go's `hex.DecodeString`: `none` models a non-nil error. -/
def hexDecodeString (s : String) : Option (List Nat) :=
  hexDecodeChars s.data

/-- The standard base64 alphabet used by Go's `base64.StdEncoding`. -/
def base64Alphabet : List Char :=
  "ABCDEFGHIJKLMNOPQRSTUVWXYZabcdefghijklmnopqrstuvwxyz0123456789+/".data

/-- Character for a 6-bit group. -/
def b64Char (n : Nat) : Char := base64Alphabet.getD n 'A'

/-- Base64 encoding of a byte list to characters, with `=` padding for a
trailing group of one or two bytes, as `base64.StdEncoding` produces. -/
def base64EncodeChars : List Nat → List Char
  | [] => []
  | [b1] => [b64Char (b1 / 4), b64Char (b1 % 4 * 16), '=', '=']
  | [b1, b2] => [b64Char (b1 / 4), b64Char (b1 % 4 * 16 + b2 / 16),
      b64Char (b2 % 16 * 4), '=']
  | b1 :: b2 :: b3 :: rest =>
    b64Char (b1 / 4) :: b64Char (b1 % 4 * 16 + b2 / 16) ::
      b64Char (b2 % 16 * 4 + b3 / 64) :: b64Char (b3 % 64) ::
      base64EncodeChars rest

/-- Model of Go's `base64.StdEncoding.EncodeToString`. -/
def base64EncodeToString (bs : List Nat) : String :=
  String.mk (base64EncodeChars bs)

/-- The key test in `transformHexIdsToBase64`:
`key == "traceId" || key == "spanId" || key == "parentSpanId"`. -/
def isReservedKey (k : String) : Bool :=
  k == "traceId" || k == "spanId" || k == "parentSpanId"

mutual

/-- Model of `transformHexIdsToBase64` in `otel_proxy.go`: on a map it
handles each entry with `transformEntries`; on a slice it recurses into
every element; any other value is returned unchanged (the Go function
mutates in place, the model returns the resulting tree). -/
def transformHexIdsToBase64 : Json → Json
  | .obj kvs => .obj (transformEntries kvs)
  | .arr items => .arr (transformList items)
  | v => v

/-- Entry handling of `transformHexIdsToBase64`: under a reserved key a
string value that hex-decodes is replaced by the base64 encoding of the
decoded bytes and any other value is left as is (no recursion); under any
other key the function recurses into the value. -/
def transformEntries : List (String × Json) → List (String × Json)
  | [] => []
  | (k, v) :: rest =>
    (if isReservedKey k then
      match v with
      | .str s =>
        match hexDecodeString s with
        | some decoded => (k, Json.str (base64EncodeToString decoded))
        | none => (k, Json.str s)
      | _ => (k, v)
     else (k, transformHexIdsToBase64 v)) :: transformEntries rest

/-- Slice handling of `transformHexIdsToBase64`. -/
def transformList : List Json → List Json
  | [] => []
  | v :: rest => transformHexIdsToBase64 v :: transformList rest

end

/-- Model of `commonpb.AnyValue`: the proxy only produces string values and
only copies values otherwise, so the remaining protobuf kinds are grouped
in pass-through constructors. -/
inductive AnyValue where
  | stringValue : String → AnyValue
  | boolValue : Bool → AnyValue
  | intValue : Int → AnyValue
  | doubleValue : Int → AnyValue
  | otherValue : AnyValue
  deriving DecidableEq, Repr

/-- Model of `commonpb.KeyValue`: a key and a value. -/
structure KeyValue where
  key : String
  value : AnyValue
  deriving DecidableEq, Repr

/-- Model of `resourcepb.Resource` as used by the proxy: its attribute
sequence plus one opaque remaining field standing for the fields the proxy
never touches (e.g. `DroppedAttributesCount`). -/
structure Resource where
  attributes : List KeyValue
  droppedAttributesCount : Nat
  deriving DecidableEq, Repr

/-- Model of `tracepb.Span` restricted to the fields the claims mention:
identifier byte slices and a name standing for the remaining pass-through
fields. -/
structure Span where
  traceId : List Nat
  spanId : List Nat
  parentSpanId : List Nat
  name : String
  deriving DecidableEq, Repr

/-- Model of `tracepb.ScopeSpans`. -/
structure ScopeSpans where
  spans : List Span
  deriving DecidableEq, Repr

/-- Model of `tracepb.ResourceSpans`: an optional resource (a nil pointer
in Go is `none`) plus the scope spans and schema URL passed through. -/
structure ResourceSpans where
  resource : Option Resource
  scopeSpans : List ScopeSpans
  schemaUrl : String
  deriving DecidableEq, Repr

/-- Model of `coltracepb.ExportTraceServiceRequest`. -/
structure ExportTraceServiceRequest where
  resourceSpans : List ResourceSpans
  deriving DecidableEq, Repr

/-- Phase one of `upsertAttribute` for a single existing attribute: Go runs
`for _, newKv := range upsert { if kv.Key == newKv.Key { kv.Value =
newKv.Value } }`, so the last matching override in `upsert` wins and the
key is never changed. -/
def replaceFromUpsert (upsert : List KeyValue) (kv : KeyValue) : KeyValue :=
  upsert.foldl
    (fun acc newKv => if acc.key = newKv.key then { acc with value := newKv.value } else acc)
    kv

/-- Model of `upsertAttribute` in `otel_proxy.go`: first every existing
attribute whose key matches an override gets the override's value in
place; then each override whose key is absent from the evolving list is
appended at the end. -/
def upsertAttribute (attrs : List KeyValue) (upsert : List KeyValue) : List KeyValue :=
  upsert.foldl
    (fun acc newKv => if acc.any (fun kv => kv.key == newKv.key) then acc else acc ++ [newKv])
    (attrs.map (replaceFromUpsert upsert))

/-- Loop body of `(*otelProxy).overrideResourceAttributes` for one
resource span: a nil resource is skipped (`continue`), a present resource
gets its attributes upserted. -/
def overrideResourceSpan (pAttributes : List KeyValue) (rs : ResourceSpans) : ResourceSpans :=
  match rs.resource with
  | none => rs
  | some res =>
    { rs with resource := some { res with attributes := upsertAttribute res.attributes pAttributes } }

/-- Model of `(*otelProxy).overrideResourceAttributes`: every resource
span with a present resource gets its attributes upserted with the
proxy's configured attributes; spans with a nil resource are skipped. -/
def overrideResourceAttributes (pAttributes : List KeyValue)
    (req : ExportTraceServiceRequest) : ExportTraceServiceRequest :=
  { req with resourceSpans := req.resourceSpans.map (overrideResourceSpan pAttributes) }

/-- The five override attributes built in `NewOtelTraceProxy` from the
component name, full version, deployment stage string and the caller's
source component. -/
def proxyAttributes (component fullVersion stage srcComponent : String) : List KeyValue :=
  [ ⟨"otel_proxy.service.name", .stringValue component⟩,
    ⟨"otel_proxy.service.version", .stringValue fullVersion⟩,
    ⟨"otel_proxy.deployment.environment", .stringValue stage⟩,
    ⟨"service.name", .stringValue srcComponent⟩,
    ⟨"deployment.environment.name", .stringValue stage⟩ ]

/-- Value of one base64 alphabet character (`=` is not in the alphabet). -/
def b64DigitValue (c : Char) : Option Nat :=
  base64Alphabet.indexOf? c

/-- Modelled from the spec: protobuf-JSON decoding of a bytes field uses
base64 (the library `protojson` is not part of src/); it accepts the
padded standard form as well as an unpadded trailing group of two or
three characters.  Decoding of a character list to bytes. -/
def base64DecodeChars : List Char → Option (List Nat)
  | [] => some []
  | [c1, c2] => do
    let v1 ← b64DigitValue c1
    let v2 ← b64DigitValue c2
    pure [v1 * 4 + v2 / 16]
  | [c1, c2, c3] => do
    let v1 ← b64DigitValue c1
    let v2 ← b64DigitValue c2
    let v3 ← b64DigitValue c3
    pure [v1 * 4 + v2 / 16, v2 % 16 * 16 + v3 / 4]
  | c1 :: c2 :: c3 :: c4 :: rest =>
    if c3 = '=' ∧ c4 = '=' ∧ rest = [] then do
      let v1 ← b64DigitValue c1
      let v2 ← b64DigitValue c2
      pure [v1 * 4 + v2 / 16]
    else if c4 = '=' ∧ rest = [] then do
      let v1 ← b64DigitValue c1
      let v2 ← b64DigitValue c2
      let v3 ← b64DigitValue c3
      pure [v1 * 4 + v2 / 16, v2 % 16 * 16 + v3 / 4]
    else do
      let v1 ← b64DigitValue c1
      let v2 ← b64DigitValue c2
      let v3 ← b64DigitValue c3
      let v4 ← b64DigitValue c4
      let tail ← base64DecodeChars rest
      pure ((v1 * 4 + v2 / 16) :: (v2 % 16 * 16 + v3 / 4) :: (v3 % 4 * 64 + v4) :: tail)
  | _ => none

/-- Modelled from the spec: base64 decoding of a string-valued bytes field
per the protobuf-JSON mapping rules of §4.2. -/
def base64DecodeString (s : String) : Option (List Nat) :=
  base64DecodeChars s.data

/-- Uppercase hexadecimal rendering of a byte list: the encoding a caller
uses when it sends identifiers as uppercase hex text (input construction
for the algebraic claims, not a function of the source). -/
def hexEncodeUpperChars : List Nat → List Char
  | [] => []
  | b :: rest =>
    "0123456789ABCDEF".data.getD (b / 16) '0' ::
      "0123456789ABCDEF".data.getD (b % 16) '0' :: hexEncodeUpperChars rest

/-- Uppercase hexadecimal rendering of a byte list as a string. -/
def hexEncodeUpper (bs : List Nat) : String :=
  String.mk (hexEncodeUpperChars bs)

/-- First value stored under a key in a JSON object entry list. -/
def jsonLookup (kvs : List (String × Json)) (k : String) : Option Json :=
  match kvs.find? (fun kv => kv.1 == k) with
  | some kv => some kv.2
  | none => none

/-- Modelled from the spec: protobuf-JSON decoding of one attribute
(`commonpb.KeyValue`), restricted to the value kinds the model carries. -/
def pjDecodeKeyValue (j : Json) : Option KeyValue :=
  match j with
  | .obj kvs =>
    match jsonLookup kvs "key" with
    | some (.str k) =>
      match jsonLookup kvs "value" with
      | some (.obj vkvs) =>
        match jsonLookup vkvs "stringValue" with
        | some (.str s) => some ⟨k, .stringValue s⟩
        | _ =>
          match jsonLookup vkvs "boolValue" with
          | some (.bool b) => some ⟨k, .boolValue b⟩
          | _ => none
      | _ => none
    | _ => none
  | _ => none

/-- Modelled from the spec: protobuf-JSON decoding of a bytes-valued
identifier field: absent means the empty (default) byte string, a string
must decode as base64, anything else is a schema mismatch. -/
def pjDecodeIdField (kvs : List (String × Json)) (k : String) : Option (List Nat) :=
  match jsonLookup kvs k with
  | none => some []
  | some (.str s) => base64DecodeString s
  | some _ => none

/-- Modelled from the spec: protobuf-JSON decoding of one span, restricted
to the identifier fields and the name. -/
def pjDecodeSpan (j : Json) : Option Span :=
  match j with
  | .obj kvs => do
    let t ← pjDecodeIdField kvs "traceId"
    let s ← pjDecodeIdField kvs "spanId"
    let p ← pjDecodeIdField kvs "parentSpanId"
    let n :=
      match jsonLookup kvs "name" with
      | some (.str n) => n
      | _ => ""
    pure ⟨t, s, p, n⟩
  | _ => none

/-- Modelled from the spec: protobuf-JSON decoding of one scope-span
group. -/
def pjDecodeScopeSpans (j : Json) : Option ScopeSpans :=
  match j with
  | .obj kvs =>
    match jsonLookup kvs "spans" with
    | none => some ⟨[]⟩
    | some (.arr items) => (items.mapM pjDecodeSpan).map (fun l => ⟨l⟩)
    | some _ => none
  | _ => none

/-- Modelled from the spec: protobuf-JSON decoding of a resource. -/
def pjDecodeResource (j : Json) : Option Resource :=
  match j with
  | .obj kvs =>
    match jsonLookup kvs "attributes" with
    | none => some ⟨[], 0⟩
    | some (.arr items) => (items.mapM pjDecodeKeyValue).map (fun l => ⟨l, 0⟩)
    | some _ => none
  | _ => none

/-- Modelled from the spec: protobuf-JSON decoding of one resource-span
group. -/
def pjDecodeResourceSpans (j : Json) : Option ResourceSpans :=
  match j with
  | .obj kvs => do
    let res ←
      match jsonLookup kvs "resource" with
      | none => some none
      | some rj => (pjDecodeResource rj).map some
    let sc ←
      match jsonLookup kvs "scopeSpans" with
      | none => some []
      | some (.arr items) => items.mapM pjDecodeScopeSpans
      | some _ => none
    let u :=
      match jsonLookup kvs "schemaUrl" with
      | some (.str s) => s
      | _ => ""
    pure ⟨res, sc, u⟩
  | _ => none

/-- Modelled from the spec: protobuf-JSON decoding of an
`ExportTraceServiceRequest` (what `protojson.Unmarshal` does to the
re-marshalled corrected body), restricted to the modelled fields. -/
def pjDecodeRequest (j : Json) : Option ExportTraceServiceRequest :=
  match j with
  | .obj kvs =>
    match jsonLookup kvs "resourceSpans" with
    | none => some ⟨[]⟩
    | some (.arr items) => (items.mapM pjDecodeResourceSpans).map (fun l => ⟨l⟩)
    | some _ => none
  | _ => none

/-- Model of Go's `strings.HasPrefix`, used by the content-type switch in
`(*otelProxy).traces`. -/
def hasPre (s pre : String) : Bool :=
  pre.data.isPrefixOf s.data

/-- Outcome of the proxy constructor: the construction result and whether
the step that establishes the upstream connection was reached. -/
structure CtorOutcome where
  result : Except String Unit
  connectAttempted : Bool
  deriving Repr

/-- Model of `NewOtelTraceProxy`'s validation and connection sequence: the
three emptiness checks run in order before any dial; `connectOk` models
whether `grpc.NewClient` returns an error. -/
def NewOtelTraceProxy (endpoint user pass : String) (connectOk : Bool) : CtorOutcome :=
  if endpoint = "" then ⟨.error "otel trace endpoint is required", false⟩
  else if user = "" then ⟨.error "otel trace user is required", false⟩
  else if pass = "" then ⟨.error "otel trace password is required", false⟩
  else if connectOk then ⟨.ok (), true⟩
  else ⟨.error "failed to connect to gRPC collector", true⟩

/-- Observable outcome of one call to the `/v1/traces` handler: the HTTP
status written, the response content type set (none for the plain-text
error paths), whether the outbound `Export` call was issued, and the
request it forwarded. -/
structure TracesResult where
  status : Nat
  contentType : Option String
  exportCalled : Bool
  exported : Option ExportTraceServiceRequest
  deriving DecidableEq, Repr

/-- Model of `(*otelProxy).traces` control flow.  External effects are
explicit inputs: `bodyReadOk` is whether `io.ReadAll` succeeds,
`jsonParse` the result of `json.Unmarshal` of the body into the generic
tree (`none` models an error), `pjUnmarshal` the composition of
`json.Marshal` with `protojson.Unmarshal`, `pbUnmarshal` the result of
`proto.Unmarshal` of the body, `exportOk` whether the gRPC `Export` call
succeeds and `respMarshalOk` whether marshalling of its response
succeeds. -/
def traces (pAttributes : List KeyValue) (method contentType : String)
    (bodyReadOk : Bool) (jsonParse : Option Json)
    (pjUnmarshal : Json → Option ExportTraceServiceRequest)
    (pbUnmarshal : Option ExportTraceServiceRequest)
    (exportOk respMarshalOk : Bool) : TracesResult :=
  if method ≠ "POST" then ⟨405, none, false, none⟩
  else if ¬bodyReadOk then ⟨500, none, false, none⟩
  else if hasPre contentType "application/json" then
    match jsonParse with
    | none => ⟨400, none, false, none⟩
    | some tree =>
      match pjUnmarshal (transformHexIdsToBase64 tree) with
      | none => ⟨400, none, false, none⟩
      | some req =>
        let enforced := overrideResourceAttributes pAttributes req
        if ¬exportOk then ⟨500, none, true, some enforced⟩
        else if ¬respMarshalOk then ⟨500, none, true, some enforced⟩
        else ⟨200, some "application/json", true, some enforced⟩
  else if hasPre contentType "application/x-protobuf" then
    match pbUnmarshal with
    | none => ⟨400, none, false, none⟩
    | some req =>
      let enforced := overrideResourceAttributes pAttributes req
      if ¬exportOk then ⟨500, none, true, some enforced⟩
      else if ¬respMarshalOk then ⟨500, none, true, some enforced⟩
      else ⟨200, some "application/x-protobuf", true, some enforced⟩
  else ⟨415, none, false, none⟩

mutual

/-- Identifier-sized trees: along the paths `transformHexIdsToBase64`
actually visits, every string stored under a reserved key either fails to
hex-decode or hex-decodes to exactly 16 or 8 bytes. -/
def idSized : Json → Bool
  | .obj kvs => idSizedEntries kvs
  | .arr items => idSizedList items
  | _ => true

/-- Identifier-sized check for one entry: under a reserved key a string
must hex-decode to 16 or 8 bytes if it hex-decodes at all; under any
other key the value is checked recursively. -/
def idSizedEntry : String × Json → Bool
  | (k, v) =>
    if isReservedKey k then
      match v with
      | .str s =>
        match hexDecodeString s with
        | some decoded => decoded.length == 16 || decoded.length == 8
        | none => true
      | _ => true
    else idSized v

/-- Entry part of `idSized`. -/
def idSizedEntries : List (String × Json) → Bool
  | [] => true
  | kv :: rest => idSizedEntry kv && idSizedEntries rest

/-- List part of `idSized`. -/
def idSizedList : List Json → Bool
  | [] => true
  | v :: rest => idSized v && idSizedList rest

end

/-- One traversal step of `transformHexIdsToBase64` that descends: from an
object into the value of a non-reserved key, or from an array into an
element.  Values stored under reserved keys are not steps, matching the
code's `else` branch. -/
inductive VisitStep : Json → Json → Prop where
  | objStep (kvs : List (String × Json)) (k : String) (v : Json) :
      (k, v) ∈ kvs → isReservedKey k = false → VisitStep (.obj kvs) v
  | arrStep (items : List Json) (v : Json) :
      v ∈ items → VisitStep (.arr items) v

/-- Reachability of a subtree through traversal steps only. -/
def Visits (t u : Json) : Prop := Relation.ReflTransGen VisitStep t u

/-- Action of `transformEntries` on a single entry, as a function. -/
def transformEntry (kv : String × Json) : String × Json :=
  if isReservedKey kv.1 then
    match kv.2 with
    | .str s =>
      match hexDecodeString s with
      | some decoded => (kv.1, Json.str (base64EncodeToString decoded))
      | none => (kv.1, Json.str s)
    | _ => kv
  else (kv.1, transformHexIdsToBase64 kv.2)

theorem transformEntries_eq_map (kvs : List (String × Json)) :
    transformEntries kvs = kvs.map transformEntry := by
  induction kvs with
  | nil => rfl
  | cons kv rest ih =>
    obtain ⟨k, v⟩ := kv
    simp only [transformEntries, transformEntry, List.map_cons, ih]

theorem transformList_eq_map (items : List Json) :
    transformList items = items.map transformHexIdsToBase64 := by
  induction items with
  | nil => rfl
  | cons v rest ih => simp only [transformList, List.map_cons, ih]

theorem transformEntry_fst (kv : String × Json) : (transformEntry kv).1 = kv.1 := by
  obtain ⟨k, v⟩ := kv
  by_cases h : isReservedKey k
  · cases v with
    | str s =>
      simp only [transformEntry, h, if_true]
      cases hexDecodeString s <;> simp
    | _ => simp [transformEntry, h]
  · simp [transformEntry, h]

theorem visitStep_map_transform {t u : Json} (h : VisitStep t u) :
    VisitStep (transformHexIdsToBase64 t) (transformHexIdsToBase64 u) := by
  cases h with
  | objStep kvs k v hmem hres =>
    have : (k, transformHexIdsToBase64 u) ∈ transformEntries kvs := by
      rw [transformEntries_eq_map]
      refine List.mem_map.mpr ⟨(k, u), hmem, ?_⟩
      simp [transformEntry, hres]
    exact VisitStep.objStep (transformEntries kvs) k (transformHexIdsToBase64 u) this hres
  | arrStep items v hmem =>
    have : transformHexIdsToBase64 u ∈ transformList items := by
      rw [transformList_eq_map]
      exact List.mem_map.mpr ⟨u, hmem, rfl⟩
    exact VisitStep.arrStep (transformList items) (transformHexIdsToBase64 u) this

theorem visits_map_transform {t u : Json} (h : Visits t u) :
    Visits (transformHexIdsToBase64 t) (transformHexIdsToBase64 u) :=
  Relation.ReflTransGen.lift transformHexIdsToBase64 (fun _ _ hs => visitStep_map_transform hs) h

/-- Claim C1 (amended): in every mapping the normalizer processes, each
directly stored entry behaves as claimed — a string under a reserved key
that hex-decodes is replaced by the base64 text of the decoded bytes, a
value under a reserved key that fails to hex-decode (or is not a string)
is left untouched, and a value under any other key is never id-rewritten:
it is only recursed into, and a string there stays itself.  (The original
claim also covered strings nested inside the value of a reserved key;
those are not reached, see the counterexample.) -/
theorem C1_normalizer_entrywise (kvs : List (String × Json)) (i : Nat)
    (h : i < kvs.length) (k : String) (v : Json) (hkv : kvs.get ⟨i, h⟩ = (k, v)) :
    ∃ (kvs2 : List (String × Json)) (h2 : i < kvs2.length),
      transformHexIdsToBase64 (Json.obj kvs) = Json.obj kvs2 ∧
      kvs2.length = kvs.length ∧
      (∀ s decoded, isReservedKey k = true → v = Json.str s →
        hexDecodeString s = some decoded →
        kvs2.get ⟨i, h2⟩ = (k, Json.str (base64EncodeToString decoded))) ∧
      (isReservedKey k = true → (∀ s, v = Json.str s → hexDecodeString s = none) →
        kvs2.get ⟨i, h2⟩ = (k, v)) ∧
      (isReservedKey k = false →
        kvs2.get ⟨i, h2⟩ = (k, transformHexIdsToBase64 v)) ∧
      (∀ s, isReservedKey k = false → v = Json.str s →
        kvs2.get ⟨i, h2⟩ = (k, Json.str s)) := by
  have h2 : i < (kvs.map transformEntry).length := by
    simpa using h
  refine ⟨kvs.map transformEntry, h2, ?_, by simp, ?_, ?_, ?_, ?_⟩
  · show Json.obj (transformEntries kvs) = _
    rw [transformEntries_eq_map]
  all_goals
    have hget : (kvs.map transformEntry).get ⟨i, h2⟩ = transformEntry (kvs.get ⟨i, h⟩) := by
      simp
  · intro s decoded hres hv hdec
    rw [hget, hkv, hv]
    simp [transformEntry, hres, hdec]
  · intro hres hnone
    rw [hget, hkv]
    cases v with
    | str s => simp [transformEntry, hres, hnone s rfl]
    | _ => simp [transformEntry, hres]
  · intro hres
    rw [hget, hkv]
    simp [transformEntry, hres]
  · intro s hres hv
    rw [hget, hkv, hv]
    simp [transformEntry, transformHexIdsToBase64, hres]

/-- Claim C1, witness: the amended theorem applied to the concrete
mapping with entries `traceId ↦ "0a"` and `other ↦ "0a"` at index 0. -/
theorem C1_normalizer_entrywise_witness :
    ∃ (kvs2 : List (String × Json)) (h2 : 0 < kvs2.length),
      transformHexIdsToBase64 (Json.obj [("traceId", Json.str "0a"), ("other", Json.str "0a")]) = Json.obj kvs2 ∧
      kvs2.length = [("traceId", Json.str "0a"), ("other", Json.str "0a")].length ∧
      (∀ s decoded, isReservedKey "traceId" = true → Json.str "0a" = Json.str s →
        hexDecodeString s = some decoded →
        kvs2.get ⟨0, h2⟩ = ("traceId", Json.str (base64EncodeToString decoded))) ∧
      (isReservedKey "traceId" = true → (∀ s, Json.str "0a" = Json.str s → hexDecodeString s = none) →
        kvs2.get ⟨0, h2⟩ = ("traceId", Json.str "0a")) ∧
      (isReservedKey "traceId" = false →
        kvs2.get ⟨0, h2⟩ = ("traceId", transformHexIdsToBase64 (Json.str "0a"))) ∧
      (∀ s, isReservedKey "traceId" = false → Json.str "0a" = Json.str s →
        kvs2.get ⟨0, h2⟩ = ("traceId", Json.str s)) :=
  C1_normalizer_entrywise [("traceId", Json.str "0a"), ("other", Json.str "0a")] 0
    (by decide) "traceId" (Json.str "0a") rfl

/-- Claim C1, counterexample to the original reading: the string `"abcd"`
sits under the key `parentSpanId` and hex-decodes to `[171, 205]`, yet the
normalizer leaves the whole tree unchanged because the entry is nested
inside the value of the reserved key `spanId`, which is never recursed
into; `"abcd"` is not replaced by its base64 form. -/
theorem C1_nested_reserved_not_rewritten :
    hexDecodeString "abcd" = some [171, 205] ∧
    transformHexIdsToBase64
        (Json.obj [("spanId", Json.arr [Json.obj [("parentSpanId", Json.str "abcd")]])]) =
      Json.obj [("spanId", Json.arr [Json.obj [("parentSpanId", Json.str "abcd")]])] ∧
    base64EncodeToString [171, 205] ≠ "abcd" :=
  ⟨rfl, rfl, by decide⟩

/-- Claim C2 (amended): the traversal recurses into every mapping and
sequence stored under a non-reserved key and into every sequence element,
but never into a value stored under `traceId`, `spanId` or
`parentSpanId`; consequently a matching key whose path from the root
passes only through non-reserved keys and sequence elements is rewritten,
at the corresponding reachable position of the transformed tree. -/
theorem C2_recursion_rewrites_reachable (t : Json) (kvs : List (String × Json))
    (hvisit : Visits t (Json.obj kvs)) (i : Nat) (h : i < kvs.length)
    (k s : String) (decoded : List Nat) (hkv : kvs.get ⟨i, h⟩ = (k, Json.str s))
    (hres : isReservedKey k = true) (hdec : hexDecodeString s = some decoded) :
    ∃ (kvs2 : List (String × Json)) (h2 : i < kvs2.length),
      transformHexIdsToBase64 (Json.obj kvs) = Json.obj kvs2 ∧
      Visits (transformHexIdsToBase64 t) (Json.obj kvs2) ∧
      kvs2.get ⟨i, h2⟩ = (k, Json.str (base64EncodeToString decoded)) := by
  have h2 : i < (kvs.map transformEntry).length := by simpa using h
  have heq : transformHexIdsToBase64 (Json.obj kvs) = Json.obj (kvs.map transformEntry) := by
    show Json.obj (transformEntries kvs) = _
    rw [transformEntries_eq_map]
  refine ⟨kvs.map transformEntry, h2, heq, ?_, ?_⟩
  · have := visits_map_transform hvisit
    rwa [heq] at this
  · have hget : (kvs.map transformEntry).get ⟨i, h2⟩ = transformEntry (kvs.get ⟨i, h⟩) := by
      simp
    rw [hget, hkv]
    simp [transformEntry, hres, hdec]

/-- Claim C2, witness: the amended theorem applied at the tree
`{resourceSpans: [{traceId: "ff"}]}`; the matching key sits two
non-reserved steps below the root and is rewritten. -/
theorem C2_recursion_rewrites_reachable_witness :
    ∃ (kvs2 : List (String × Json)) (h2 : 0 < kvs2.length),
      transformHexIdsToBase64 (Json.obj [("traceId", Json.str "ff")]) = Json.obj kvs2 ∧
      Visits
        (transformHexIdsToBase64
          (Json.obj [("resourceSpans", Json.arr [Json.obj [("traceId", Json.str "ff")]])]))
        (Json.obj kvs2) ∧
      kvs2.get ⟨0, h2⟩ = ("traceId", Json.str (base64EncodeToString [255])) :=
  C2_recursion_rewrites_reachable
    (Json.obj [("resourceSpans", Json.arr [Json.obj [("traceId", Json.str "ff")]])])
    [("traceId", Json.str "ff")]
    (Relation.ReflTransGen.head
      (VisitStep.objStep _ "resourceSpans" (Json.arr [Json.obj [("traceId", Json.str "ff")]])
        (by simp) (by decide))
      (Relation.ReflTransGen.head
        (VisitStep.arrStep _ (Json.obj [("traceId", Json.str "ff")]) (by simp))
        Relation.ReflTransGen.refl))
    0 (by decide) "traceId" "ff" [255] rfl (by decide) rfl

/-- Claim C2, counterexample to the claim as stated: a mapping stored
under the reserved key `traceId` is not recursed into — the nested
matching key `spanId` holds `"ff"`, which hex-decodes to `[255]`, yet the
tree is returned unchanged instead of rewriting `"ff"` to its base64
form. -/
theorem C2_reserved_key_blocks_recursion :
    hexDecodeString "ff" = some [255] ∧
    transformHexIdsToBase64 (Json.obj [("traceId", Json.obj [("spanId", Json.str "ff")])]) =
      Json.obj [("traceId", Json.obj [("spanId", Json.str "ff")])] ∧
    base64EncodeToString [255] ≠ "ff" :=
  ⟨rfl, rfl, by decide⟩

/-- Claim C8: a resource span whose resource is absent is returned by the
attribute enforcer exactly as it was — no resource is fabricated and no
other field changes — and the surrounding request keeps its shape. -/
theorem C8_nil_resource_untouched (pAttributes : List KeyValue)
    (req : ExportTraceServiceRequest) (i : Nat) (h : i < req.resourceSpans.length)
    (hnil : (req.resourceSpans.get ⟨i, h⟩).resource = none) :
    ∃ h2 : i < (overrideResourceAttributes pAttributes req).resourceSpans.length,
      (overrideResourceAttributes pAttributes req).resourceSpans.get ⟨i, h2⟩ =
        req.resourceSpans.get ⟨i, h⟩ ∧
      (overrideResourceAttributes pAttributes req).resourceSpans.length =
        req.resourceSpans.length := by
  have h2 : i < (overrideResourceAttributes pAttributes req).resourceSpans.length := by
    simpa [overrideResourceAttributes] using h
  refine ⟨h2, ?_, by simp [overrideResourceAttributes]⟩
  have hget : (overrideResourceAttributes pAttributes req).resourceSpans.get ⟨i, h2⟩ =
      overrideResourceSpan pAttributes (req.resourceSpans.get ⟨i, h⟩) := by
    simp [overrideResourceAttributes]
  rw [hget]
  unfold overrideResourceSpan
  rw [hnil]

/-- Claim C8, witness: the theorem applied to a one-element request whose
only resource span has no resource. -/
theorem C8_nil_resource_untouched_witness :
    ∃ h2 : 0 < (overrideResourceAttributes [⟨"k", AnyValue.stringValue "v"⟩]
        ⟨[⟨none, [], "u"⟩]⟩).resourceSpans.length,
      (overrideResourceAttributes [⟨"k", AnyValue.stringValue "v"⟩]
        ⟨[⟨none, [], "u"⟩]⟩).resourceSpans.get ⟨0, h2⟩ =
        (⟨[⟨none, [], "u"⟩]⟩ : ExportTraceServiceRequest).resourceSpans.get ⟨0, by decide⟩ ∧
      (overrideResourceAttributes [⟨"k", AnyValue.stringValue "v"⟩]
        ⟨[⟨none, [], "u"⟩]⟩).resourceSpans.length =
        (⟨[⟨none, [], "u"⟩]⟩ : ExportTraceServiceRequest).resourceSpans.length :=
  C8_nil_resource_untouched [⟨"k", AnyValue.stringValue "v"⟩] ⟨[⟨none, [], "u"⟩]⟩ 0
    (by decide) rfl

/-- Claim C9: construction fails with an error and never reaches the
connection step whenever the endpoint, the user or the password is the
empty string. -/
theorem C9_ctor_requires_config (endpoint user pass : String) (connectOk : Bool)
    (h : endpoint = "" ∨ user = "" ∨ pass = "") :
    (∃ e, (NewOtelTraceProxy endpoint user pass connectOk).result = Except.error e) ∧
    (NewOtelTraceProxy endpoint user pass connectOk).connectAttempted = false := by
  by_cases he : endpoint = ""
  · exact ⟨⟨"otel trace endpoint is required", by simp [NewOtelTraceProxy, he]⟩,
      by simp [NewOtelTraceProxy, he]⟩
  · by_cases hu : user = ""
    · exact ⟨⟨"otel trace user is required", by simp [NewOtelTraceProxy, he, hu]⟩,
        by simp [NewOtelTraceProxy, he, hu]⟩
    · have hp : pass = "" := by tauto
      exact ⟨⟨"otel trace password is required", by simp [NewOtelTraceProxy, he, hu, hp]⟩,
        by simp [NewOtelTraceProxy, he, hu, hp]⟩

/-- Claim C9, witness: the theorem applied to an empty user with non-empty
endpoint and password. -/
theorem C9_ctor_requires_config_witness :
    (∃ e, (NewOtelTraceProxy "collector:4317" "" "secret" true).result = Except.error e) ∧
    (NewOtelTraceProxy "collector:4317" "" "secret" true).connectAttempted = false :=
  C9_ctor_requires_config "collector:4317" "" "secret" true (Or.inr (Or.inl rfl))

/-- Claim C6: a POST whose content type starts with neither
`application/json` nor `application/x-protobuf` is answered with 415 and
no outbound export call is issued (given the body read succeeds; a failed
read answers 500 before the content type is inspected). -/
theorem C6_unsupported_media_type (pAttributes : List KeyValue) (contentType : String)
    (jsonParse : Option Json) (pjUnmarshal : Json → Option ExportTraceServiceRequest)
    (pbUnmarshal : Option ExportTraceServiceRequest) (exportOk respMarshalOk : Bool)
    (hjson : hasPre contentType "application/json" = false)
    (hpb : hasPre contentType "application/x-protobuf" = false) :
    traces pAttributes "POST" contentType true jsonParse pjUnmarshal pbUnmarshal
      exportOk respMarshalOk = ⟨415, none, false, none⟩ := by
  simp [traces, hjson, hpb]

/-- Claim C6, witness: a `text/plain` POST. -/
theorem C6_unsupported_media_type_witness :
    traces [] "POST" "text/plain" true none (fun _ => none) none true true =
      ⟨415, none, false, none⟩ :=
  C6_unsupported_media_type [] "text/plain" none (fun _ => none) none true true
    (by decide) (by decide)

/-- Claim C7: a POST with a JSON content type whose body fails to parse
(`json.Unmarshal` errors, modelled as `none`) is answered with 400 and no
outbound export call is issued; the handler returns a normal response (the
model is a total function). -/
theorem C7_malformed_json_body (pAttributes : List KeyValue) (contentType : String)
    (pjUnmarshal : Json → Option ExportTraceServiceRequest)
    (pbUnmarshal : Option ExportTraceServiceRequest) (exportOk respMarshalOk : Bool)
    (hjson : hasPre contentType "application/json" = true) :
    traces pAttributes "POST" contentType true none pjUnmarshal pbUnmarshal
      exportOk respMarshalOk = ⟨400, none, false, none⟩ := by
  simp [traces, hjson]

/-- Claim C7, witness: a plain `application/json` POST with an unparsable
body. -/
theorem C7_malformed_json_body_witness :
    traces [] "POST" "application/json" true none (fun _ => none) none true true =
      ⟨400, none, false, none⟩ :=
  C7_malformed_json_body [] "application/json" (fun _ => none) none true true (by decide)

theorem replaceFromUpsert_cons (n : KeyValue) (rest : List KeyValue) (kv : KeyValue) :
    replaceFromUpsert (n :: rest) kv =
      replaceFromUpsert rest (if kv.key = n.key then { kv with value := n.value } else kv) :=
  rfl

theorem replaceFromUpsert_key (upsert : List KeyValue) (kv : KeyValue) :
    (replaceFromUpsert upsert kv).key = kv.key := by
  induction upsert generalizing kv with
  | nil => rfl
  | cons n rest ih =>
    rw [replaceFromUpsert_cons, ih]
    by_cases h : kv.key = n.key <;> simp [h]

theorem replaceFromUpsert_not_mem (upsert : List KeyValue) (kv : KeyValue)
    (h : ∀ x ∈ upsert, x.key ≠ kv.key) : replaceFromUpsert upsert kv = kv := by
  induction upsert with
  | nil => rfl
  | cons n rest ih =>
    rw [replaceFromUpsert_cons,
      if_neg (fun hh => h n (List.mem_cons_self n rest) hh.symm)]
    exact ih (fun x hx => h x (List.mem_cons_of_mem n hx))

theorem replaceFromUpsert_mem (upsert : List KeyValue)
    (hU : (upsert.map KeyValue.key).Nodup) (x kv : KeyValue) (hx : x ∈ upsert)
    (hk : x.key = kv.key) : replaceFromUpsert upsert kv = ⟨kv.key, x.value⟩ := by
  induction upsert generalizing kv with
  | nil => cases hx
  | cons n rest ih =>
    rw [List.map_cons, List.nodup_cons] at hU
    obtain ⟨hn, hrest⟩ := hU
    rw [replaceFromUpsert_cons]
    rcases List.mem_cons.mp hx with rfl | hx2
    · rw [if_pos hk.symm]
      have hnone : ∀ y ∈ rest, y.key ≠ ({ kv with value := x.value } : KeyValue).key := by
        intro y hy hEq
        have hyx : y.key = x.key := by
          have : y.key = kv.key := hEq
          rw [this, ← hk]
        exact hn (by rw [← hyx]; exact List.mem_map_of_mem KeyValue.key hy)
      rw [replaceFromUpsert_not_mem rest _ hnone]
    · have hne : kv.key ≠ n.key := by
        intro hEq
        exact hn (by rw [← hEq, ← hk]; exact List.mem_map_of_mem KeyValue.key hx2)
      rw [if_neg hne]
      exact ih hrest kv hx2 hk

theorem appendIfAbsent_eq (upsert : List KeyValue)
    (hU : (upsert.map KeyValue.key).Nodup) (l : List KeyValue) :
    upsert.foldl
        (fun acc newKv => if acc.any (fun kv => kv.key == newKv.key) then acc else acc ++ [newKv]) l
      = l ++ upsert.filter (fun kv => !(l.any (fun a => a.key == kv.key))) := by
  induction upsert generalizing l with
  | nil => simp
  | cons n rest ih =>
    rw [List.map_cons, List.nodup_cons] at hU
    obtain ⟨hn, hrest⟩ := hU
    rw [List.foldl_cons]
    by_cases hl : l.any (fun kv => kv.key == n.key)
    · rw [if_pos hl, ih hrest l, List.filter_cons]
      simp [hl]
    · rw [if_neg hl, ih hrest (l ++ [n]), List.filter_cons]
      have hpred : (!(l.any (fun a => a.key == n.key))) = true := by simp [hl]
      rw [if_pos hpred]
      have hfil : rest.filter (fun kv => !((l ++ [n]).any (fun a => a.key == kv.key)))
          = rest.filter (fun kv => !(l.any (fun a => a.key == kv.key))) := by
        apply List.filter_congr
        intro kv hkv
        have hne : (n.key == kv.key) = false := by
          refine beq_eq_false_iff_ne.mpr ?_
          intro hEq
          exact hn (by rw [hEq]; exact List.mem_map_of_mem KeyValue.key hkv)
        simp [List.any_append, hne]
      rw [hfil, List.append_cons, List.append_assoc]
      simp

theorem anyKeyOfMap (l : List KeyValue) (f : KeyValue → KeyValue)
    (hf : ∀ a, (f a).key = a.key) (K : String) :
    (l.map f).any (fun b => b.key == K) = l.any (fun a => a.key == K) := by
  induction l with
  | nil => rfl
  | cons a rest ih => simp only [List.map_cons, List.any_cons, hf, ih]

theorem upsertAttribute_closed (attrs upsert : List KeyValue)
    (hU : (upsert.map KeyValue.key).Nodup) :
    upsertAttribute attrs upsert =
      attrs.map (replaceFromUpsert upsert) ++
        upsert.filter (fun kv => !(attrs.any (fun a => a.key == kv.key))) := by
  unfold upsertAttribute
  rw [appendIfAbsent_eq upsert hU (attrs.map (replaceFromUpsert upsert))]
  congr 1
  apply List.filter_congr
  intro kv _
  rw [anyKeyOfMap attrs (replaceFromUpsert upsert) (replaceFromUpsert_key upsert) kv.key]

theorem upsertAttribute_map_key (attrs upsert : List KeyValue)
    (hU : (upsert.map KeyValue.key).Nodup) :
    (upsertAttribute attrs upsert).map KeyValue.key =
      attrs.map KeyValue.key ++
        (upsert.filter (fun kv => !(attrs.any (fun a => a.key == kv.key)))).map KeyValue.key := by
  rw [upsertAttribute_closed attrs upsert hU, List.map_append, List.map_map]
  congr 1
  exact List.map_congr_left (fun a _ => by simp [Function.comp, replaceFromUpsert_key])

theorem countPKeyOfMap (l : List KeyValue) (f : KeyValue → KeyValue)
    (hf : ∀ a, (f a).key = a.key) (K : String) :
    (l.map f).countP (fun b => b.key == K) = l.countP (fun a => a.key == K) := by
  induction l with
  | nil => rfl
  | cons a rest ih => simp only [List.map_cons, List.countP_cons, hf, ih]

theorem countPKey_eq_count_map (l : List KeyValue) (K : String) :
    l.countP (fun a => a.key == K) = (l.map KeyValue.key).count K := by
  induction l with
  | nil => rfl
  | cons a rest ih =>
    simp only [List.map_cons, List.countP_cons, List.count_cons, ih]

theorem upsertAttribute_keys_nodup (attrs upsert : List KeyValue)
    (hA : (attrs.map KeyValue.key).Nodup) (hU : (upsert.map KeyValue.key).Nodup) :
    ((upsertAttribute attrs upsert).map KeyValue.key).Nodup := by
  rw [upsertAttribute_map_key attrs upsert hU]
  refine List.Nodup.append hA ?_ ?_
  · exact hU.sublist (List.Sublist.map KeyValue.key (List.filter_sublist upsert))
  · intro x hx1 hx2
    obtain ⟨kv, hkv, hkvx⟩ := List.mem_map.mp hx2
    obtain ⟨hkvu, hpred⟩ := List.mem_filter.mp hkv
    obtain ⟨a, ha, hax⟩ := List.mem_map.mp hx1
    have : attrs.any (fun b => b.key == kv.key) = true :=
      List.any_eq_true.mpr ⟨a, ha, beq_iff_eq.mpr (by rw [hax, ← hkvx])⟩
    simp [this] at hpred

theorem upsertAttribute_override_once (attrs upsert : List KeyValue)
    (hA : (attrs.map KeyValue.key).Nodup) (hU : (upsert.map KeyValue.key).Nodup)
    (kv : KeyValue) (hkv : kv ∈ upsert) :
    kv ∈ upsertAttribute attrs upsert ∧
      (upsertAttribute attrs upsert).countP (fun a => a.key == kv.key) = 1 := by
  rw [upsertAttribute_closed attrs upsert hU]
  by_cases hmem : attrs.any (fun a => a.key == kv.key)
  · obtain ⟨a, ha, hak⟩ := List.any_eq_true.mp hmem
    have hak2 : a.key = kv.key := beq_iff_eq.mp hak
    constructor
    · refine List.mem_append_left _ (List.mem_map.mpr ⟨a, ha, ?_⟩)
      rw [replaceFromUpsert_mem upsert hU kv a hkv hak2.symm, hak2]
    · rw [List.countP_append,
        countPKeyOfMap attrs (replaceFromUpsert upsert) (replaceFromUpsert_key upsert) kv.key]
      have h1 : attrs.countP (fun b => b.key == kv.key) = 1 := by
        rw [countPKey_eq_count_map]
        exact List.count_eq_one_of_mem hA (List.mem_map.mpr ⟨a, ha, hak2⟩)
      have h0 : (upsert.filter (fun b => !(attrs.any (fun c => c.key == b.key)))).countP
          (fun b => b.key == kv.key) = 0 := by
        refine List.countP_eq_zero.mpr ?_
        intro x hx hxk
        obtain ⟨hxu, hpx⟩ := List.mem_filter.mp hx
        have : attrs.any (fun c => c.key == x.key) = true :=
          List.any_eq_true.mpr ⟨a, ha, beq_iff_eq.mpr (by rw [hak2, ← beq_iff_eq.mp hxk])⟩
        simp [this] at hpx
      omega
  · have hpred : (!(attrs.any (fun a => a.key == kv.key))) = true := by simp [hmem]
    constructor
    · exact List.mem_append_right _ (List.mem_filter.mpr ⟨hkv, hpred⟩)
    · rw [List.countP_append,
        countPKeyOfMap attrs (replaceFromUpsert upsert) (replaceFromUpsert_key upsert) kv.key]
      have h0 : attrs.countP (fun b => b.key == kv.key) = 0 := by
        refine List.countP_eq_zero.mpr ?_
        intro x hx hxk
        have hnone : ∀ y ∈ attrs, ¬y.key = kv.key := by simpa using hmem
        exact hnone x hx (beq_iff_eq.mp hxk)
      have hle : (upsert.filter (fun b => !(attrs.any (fun c => c.key == b.key)))).countP
          (fun b => b.key == kv.key) ≤ upsert.countP (fun b => b.key == kv.key) :=
        (List.filter_sublist _).countP_le _
      have hup : upsert.countP (fun b => b.key == kv.key) = 1 := by
        rw [countPKey_eq_count_map]
        exact List.count_eq_one_of_mem hU (List.mem_map_of_mem KeyValue.key hkv)
      have hpos : 0 < (upsert.filter (fun b => !(attrs.any (fun c => c.key == b.key)))).countP
          (fun b => b.key == kv.key) :=
        List.countP_pos_iff.mpr ⟨kv, List.mem_filter.mpr ⟨hkv, hpred⟩, beq_self_eq_true _⟩
      omega

theorem upsertAttribute_keeps_others (attrs upsert : List KeyValue)
    (hU : (upsert.map KeyValue.key).Nodup) (kv : KeyValue) (hkv : kv ∈ attrs)
    (hnot : kv.key ∉ upsert.map KeyValue.key) : kv ∈ upsertAttribute attrs upsert := by
  rw [upsertAttribute_closed attrs upsert hU]
  refine List.mem_append_left _ (List.mem_map.mpr ⟨kv, hkv, ?_⟩)
  exact replaceFromUpsert_not_mem upsert kv
    (fun x hx hEq => hnot (by rw [← hEq]; exact List.mem_map_of_mem KeyValue.key hx))

/-- Claim C3 (amended): when the pre-existing attribute keys of the
resource are pairwise distinct and the override keys are pairwise
distinct, the enforcer leaves the resource span intact except for its
attribute list, whose keys end up unique: every override key appears
exactly once carrying the override's value, every attribute whose key is
not overridden is kept unchanged, the order of pre-existing keys is
preserved and the override keys not present before are appended at the
end in override order.  (Without the distinctness assumptions the claim
fails: a duplicated pre-existing key stays duplicated, see the
counterexample.) -/
theorem C3_enforcer_unique_keys (upsert : List KeyValue)
    (req : ExportTraceServiceRequest) (i : Nat) (h : i < req.resourceSpans.length)
    (res : Resource) (hres : (req.resourceSpans.get ⟨i, h⟩).resource = some res)
    (hA : (res.attributes.map KeyValue.key).Nodup)
    (hU : (upsert.map KeyValue.key).Nodup) :
    ∃ h2 : i < (overrideResourceAttributes upsert req).resourceSpans.length,
      (overrideResourceAttributes upsert req).resourceSpans.get ⟨i, h2⟩ =
        { req.resourceSpans.get ⟨i, h⟩ with
          resource := some { res with attributes := upsertAttribute res.attributes upsert } } ∧
      ((upsertAttribute res.attributes upsert).map KeyValue.key).Nodup ∧
      (∀ kv ∈ upsert, kv ∈ upsertAttribute res.attributes upsert ∧
        (upsertAttribute res.attributes upsert).countP (fun a => a.key == kv.key) = 1) ∧
      (∀ kv ∈ res.attributes, kv.key ∉ upsert.map KeyValue.key →
        kv ∈ upsertAttribute res.attributes upsert) ∧
      (upsertAttribute res.attributes upsert).map KeyValue.key =
        res.attributes.map KeyValue.key ++
          (upsert.filter (fun kv => !(res.attributes.any (fun a => a.key == kv.key)))).map
            KeyValue.key := by
  have h2 : i < (overrideResourceAttributes upsert req).resourceSpans.length := by
    simpa [overrideResourceAttributes] using h
  refine ⟨h2, ?_, upsertAttribute_keys_nodup res.attributes upsert hA hU,
    fun kv hkv => upsertAttribute_override_once res.attributes upsert hA hU kv hkv,
    fun kv hkv hn => upsertAttribute_keeps_others res.attributes upsert hU kv hkv hn,
    upsertAttribute_map_key res.attributes upsert hU⟩
  have hget : (overrideResourceAttributes upsert req).resourceSpans.get ⟨i, h2⟩ =
      overrideResourceSpan upsert (req.resourceSpans.get ⟨i, h⟩) := by
    simp [overrideResourceAttributes]
  rw [hget]
  unfold overrideResourceSpan
  rw [hres]

/-- Claim C3, witness: the amended theorem applied to a resource carrying
`deployment.environment = "staging"` with the single override
`deployment.environment = "prod"`. -/
theorem C3_enforcer_unique_keys_witness :
    ∃ h2 : 0 < (overrideResourceAttributes [⟨"deployment.environment", AnyValue.stringValue "prod"⟩]
        ⟨[⟨some ⟨[⟨"deployment.environment", AnyValue.stringValue "staging"⟩], 0⟩, [], ""⟩]⟩).resourceSpans.length,
      (overrideResourceAttributes [⟨"deployment.environment", AnyValue.stringValue "prod"⟩]
        ⟨[⟨some ⟨[⟨"deployment.environment", AnyValue.stringValue "staging"⟩], 0⟩, [], ""⟩]⟩).resourceSpans.get ⟨0, h2⟩ =
        { (⟨[⟨some ⟨[⟨"deployment.environment", AnyValue.stringValue "staging"⟩], 0⟩, [], ""⟩]⟩ :
            ExportTraceServiceRequest).resourceSpans.get ⟨0, by decide⟩ with
          resource := some ⟨upsertAttribute [⟨"deployment.environment", AnyValue.stringValue "staging"⟩]
            [⟨"deployment.environment", AnyValue.stringValue "prod"⟩], 0⟩ } ∧
      ((upsertAttribute [⟨"deployment.environment", AnyValue.stringValue "staging"⟩]
        [⟨"deployment.environment", AnyValue.stringValue "prod"⟩]).map KeyValue.key).Nodup ∧
      (∀ kv ∈ [(⟨"deployment.environment", AnyValue.stringValue "prod"⟩ : KeyValue)],
        kv ∈ upsertAttribute [⟨"deployment.environment", AnyValue.stringValue "staging"⟩]
          [⟨"deployment.environment", AnyValue.stringValue "prod"⟩] ∧
        (upsertAttribute [⟨"deployment.environment", AnyValue.stringValue "staging"⟩]
          [⟨"deployment.environment", AnyValue.stringValue "prod"⟩]).countP
            (fun a => a.key == kv.key) = 1) ∧
      (∀ kv ∈ [(⟨"deployment.environment", AnyValue.stringValue "staging"⟩ : KeyValue)],
        kv.key ∉ [(⟨"deployment.environment", AnyValue.stringValue "prod"⟩ : KeyValue)].map KeyValue.key →
        kv ∈ upsertAttribute [⟨"deployment.environment", AnyValue.stringValue "staging"⟩]
          [⟨"deployment.environment", AnyValue.stringValue "prod"⟩]) ∧
      (upsertAttribute [⟨"deployment.environment", AnyValue.stringValue "staging"⟩]
        [⟨"deployment.environment", AnyValue.stringValue "prod"⟩]).map KeyValue.key =
        [(⟨"deployment.environment", AnyValue.stringValue "staging"⟩ : KeyValue)].map KeyValue.key ++
          ([(⟨"deployment.environment", AnyValue.stringValue "prod"⟩ : KeyValue)].filter
            (fun kv => !([(⟨"deployment.environment", AnyValue.stringValue "staging"⟩ : KeyValue)].any
              (fun a => a.key == kv.key)))).map KeyValue.key :=
  C3_enforcer_unique_keys [⟨"deployment.environment", AnyValue.stringValue "prod"⟩]
    ⟨[⟨some ⟨[⟨"deployment.environment", AnyValue.stringValue "staging"⟩], 0⟩, [], ""⟩]⟩ 0
    (by decide) ⟨[⟨"deployment.environment", AnyValue.stringValue "staging"⟩], 0⟩ rfl
    (by decide) (by decide)

/-- Claim C3, counterexample to the original universally quantified claim:
a resource that already carries the key `k` twice keeps it twice — both
occurrences get the override's value — so after enforcement the override
key `k` appears twice, not exactly once, and the attribute keys are not
unique. -/
theorem C3_duplicate_key_not_unique :
    overrideResourceAttributes [⟨"k", AnyValue.stringValue "w"⟩]
        ⟨[⟨some ⟨[⟨"k", AnyValue.stringValue "1"⟩, ⟨"k", AnyValue.stringValue "2"⟩], 0⟩, [], ""⟩]⟩ =
      ⟨[⟨some ⟨[⟨"k", AnyValue.stringValue "w"⟩, ⟨"k", AnyValue.stringValue "w"⟩], 0⟩, [], ""⟩]⟩ ∧
    List.countP (fun a => a.key == "k")
      [(⟨"k", AnyValue.stringValue "w"⟩ : KeyValue), ⟨"k", AnyValue.stringValue "w"⟩] = 2 :=
  ⟨rfl, rfl⟩

theorem hexDigitValue_upperDigit :
    ∀ n, n < 16 → hexDigitValue ("0123456789ABCDEF".data.getD n '0') = some n := by
  decide

theorem hexDecodeChars_hexEncodeUpperChars (bs : List Nat) (h : ∀ b ∈ bs, b < 256) :
    hexDecodeChars (hexEncodeUpperChars bs) = some bs := by
  induction bs with
  | nil => rfl
  | cons b rest ih =>
    have hb : b < 256 := h b (List.mem_cons_self b rest)
    have h1 := hexDigitValue_upperDigit (b / 16) (by omega)
    have h2 := hexDigitValue_upperDigit (b % 16) (by omega)
    have h3 := ih (fun x hx => h x (List.mem_cons_of_mem b hx))
    simp only [hexEncodeUpperChars, hexDecodeChars, h1, h2, h3, Option.bind_eq_bind,
      Option.some_bind, Option.pure_def, Option.some.injEq, List.cons.injEq, and_true]
    omega

theorem hexDecodeChars_none_of_invalid :
    ∀ (l : List Char) (c : Char), c ∈ l → hexDigitValue c = none → hexDecodeChars l = none
  | [], c, hc, _ => absurd hc (List.not_mem_nil c)
  | [_], _, _, _ => rfl
  | c1 :: c2 :: rest, c, hc, hval => by
    rcases List.mem_cons.mp hc with rfl | hc2
    · simp [hexDecodeChars, hval]
    rcases List.mem_cons.mp hc2 with rfl | hc3
    · cases h1 : hexDigitValue c1 <;> simp [hexDecodeChars, h1, hval]
    · have htail := hexDecodeChars_none_of_invalid rest c hc3 hval
      cases h1 : hexDigitValue c1 <;> cases h2 : hexDigitValue c2 <;>
        simp [hexDecodeChars, h1, h2, htail]

theorem eq_mem_base64EncodeChars :
    ∀ bs : List Nat, bs.length % 3 = 1 ∨ bs.length % 3 = 2 → '=' ∈ base64EncodeChars bs
  | [], h => by simp at h
  | [b1], _ => by simp [base64EncodeChars]
  | [b1, b2], _ => by simp [base64EncodeChars]
  | b1 :: b2 :: b3 :: rest, h => by
    have h3 : rest.length % 3 = 1 ∨ rest.length % 3 = 2 := by
      simp only [List.length_cons] at h
      omega
    have hmem := eq_mem_base64EncodeChars rest h3
    show '=' ∈ b64Char (b1 / 4) :: b64Char (b1 % 4 * 16 + b2 / 16) ::
      b64Char (b2 % 16 * 4 + b3 / 64) :: b64Char (b3 % 64) :: base64EncodeChars rest
    exact List.mem_cons_of_mem _ (List.mem_cons_of_mem _ (List.mem_cons_of_mem _
      (List.mem_cons_of_mem _ hmem)))

theorem hexDecodeString_base64_pad_none (bs : List Nat)
    (h : bs.length % 3 = 1 ∨ bs.length % 3 = 2) :
    hexDecodeString (base64EncodeToString bs) = none :=
  hexDecodeChars_none_of_invalid (base64EncodeChars bs) '='
    (eq_mem_base64EncodeChars bs h) (by decide)

theorem b64DigitValue_b64Char : ∀ n, n < 64 → b64DigitValue (b64Char n) = some n := by
  decide

theorem b64Char_ne_pad : ∀ n, n < 64 → b64Char n ≠ '=' := by
  decide

theorem base64DecodeChars_encodeChars :
    ∀ bs : List Nat, (∀ b ∈ bs, b < 256) → base64DecodeChars (base64EncodeChars bs) = some bs
  | [], _ => rfl
  | [b1], h => by
    have hb1 : b1 < 256 := h b1 (by simp)
    have h1 := b64DigitValue_b64Char (b1 / 4) (by omega)
    have h2 := b64DigitValue_b64Char (b1 % 4 * 16) (by omega)
    simp [base64EncodeChars, base64DecodeChars, h1, h2]
    omega
  | [b1, b2], h => by
    have hb1 : b1 < 256 := h b1 (by simp)
    have hb2 : b2 < 256 := h b2 (by simp)
    have h1 := b64DigitValue_b64Char (b1 / 4) (by omega)
    have h2 := b64DigitValue_b64Char (b1 % 4 * 16 + b2 / 16) (by omega)
    have h3 := b64DigitValue_b64Char (b2 % 16 * 4) (by omega)
    have hne : b64Char (b2 % 16 * 4) ≠ '=' := b64Char_ne_pad _ (by omega)
    simp [base64EncodeChars, base64DecodeChars, h1, h2, h3, hne]
    omega
  | b1 :: b2 :: b3 :: rest, h => by
    have hb1 : b1 < 256 := h b1 (by simp)
    have hb2 : b2 < 256 := h b2 (by simp)
    have hb3 : b3 < 256 := h b3 (by simp)
    have h1 := b64DigitValue_b64Char (b1 / 4) (by omega)
    have h2 := b64DigitValue_b64Char (b1 % 4 * 16 + b2 / 16) (by omega)
    have h3 := b64DigitValue_b64Char (b2 % 16 * 4 + b3 / 64) (by omega)
    have h4 := b64DigitValue_b64Char (b3 % 64) (by omega)
    have hne3 : b64Char (b2 % 16 * 4 + b3 / 64) ≠ '=' := b64Char_ne_pad _ (by omega)
    have hne4 : b64Char (b3 % 64) ≠ '=' := b64Char_ne_pad _ (by omega)
    have ih := base64DecodeChars_encodeChars rest (fun x hx => h x (by simp [hx]))
    simp [base64EncodeChars, base64DecodeChars, h1, h2, h3, h4, hne3, hne4, ih]
    omega

/-- Claim C5: for any valid 16-byte trace identifier, a JSON payload
carrying it as uppercase hexadecimal under `traceId` and an otherwise
identical payload carrying it as (padded standard) base64 normalize to the
same tree — so both decode to the same internal byte value — the
already-base64 form passes through the normalizer unchanged, and the
protobuf-JSON byte decoding of the common normalized value is exactly the
identifier's bytes. -/
theorem C5_hex_base64_same_bytes (bs : List Nat) (h16 : bs.length = 16)
    (hlt : ∀ b ∈ bs, b < 256) (kvs : List (String × Json)) :
    transformHexIdsToBase64 (Json.obj (("traceId", Json.str (hexEncodeUpper bs)) :: kvs)) =
      transformHexIdsToBase64 (Json.obj (("traceId", Json.str (base64EncodeToString bs)) :: kvs)) ∧
    transformHexIdsToBase64 (Json.obj (("traceId", Json.str (base64EncodeToString bs)) :: kvs)) =
      Json.obj (("traceId", Json.str (base64EncodeToString bs)) :: transformEntries kvs) ∧
    base64DecodeString (base64EncodeToString bs) = some bs := by
  have hres : isReservedKey "traceId" = true := rfl
  have hhex : hexDecodeString (hexEncodeUpper bs) = some bs :=
    hexDecodeChars_hexEncodeUpperChars bs hlt
  have hb64 : hexDecodeString (base64EncodeToString bs) = none :=
    hexDecodeString_base64_pad_none bs (Or.inl (by rw [h16]))
  refine ⟨?_, ?_, base64DecodeChars_encodeChars bs hlt⟩
  · show Json.obj (transformEntries _) = Json.obj (transformEntries _)
    simp only [transformEntries, hres, if_true, hhex, hb64]
  · show Json.obj (transformEntries _) = _
    simp only [transformEntries, hres, if_true, hb64]

/-- Claim C5, witness: the all-zero 16-byte identifier, whose uppercase
hex form is 32 zeros and whose base64 form is `AAAAAAAAAAAAAAAAAAAAAA==`. -/
theorem C5_hex_base64_same_bytes_witness :
    transformHexIdsToBase64 (Json.obj [("traceId", Json.str (hexEncodeUpper (List.replicate 16 0)))]) =
      transformHexIdsToBase64
        (Json.obj [("traceId", Json.str (base64EncodeToString (List.replicate 16 0)))]) ∧
    transformHexIdsToBase64
        (Json.obj [("traceId", Json.str (base64EncodeToString (List.replicate 16 0)))]) =
      Json.obj (("traceId", Json.str (base64EncodeToString (List.replicate 16 0))) :: transformEntries []) ∧
    base64DecodeString (base64EncodeToString (List.replicate 16 0)) = some (List.replicate 16 0) :=
  C5_hex_base64_same_bytes (List.replicate 16 0) (by decide) (by decide) []

mutual

theorem transformIdem_tree :
    ∀ t : Json, idSized t = true →
      transformHexIdsToBase64 (transformHexIdsToBase64 t) = transformHexIdsToBase64 t
  | .obj kvs, h => by
    have h2 : idSizedEntries kvs = true := h
    show Json.obj (transformEntries (transformEntries kvs)) = Json.obj (transformEntries kvs)
    rw [transformIdem_entries kvs h2]
  | .arr items, h => by
    have h2 : idSizedList items = true := h
    show Json.arr (transformList (transformList items)) = Json.arr (transformList items)
    rw [transformIdem_list items h2]
  | .str _, _ => rfl
  | .num _, _ => rfl
  | .bool _, _ => rfl
  | .null, _ => rfl

theorem transformIdem_entry :
    ∀ kv : String × Json, idSizedEntry kv = true →
      transformEntry (transformEntry kv) = transformEntry kv
  | (k, v), h => by
    cases hres : isReservedKey k with
    | true =>
      cases v with
      | str s =>
        cases hdec : hexDecodeString s with
        | some decoded =>
          have hlen : decoded.length = 16 ∨ decoded.length = 8 := by
            have hh : (decoded.length == 16 || decoded.length == 8) = true := by
              have h2 : idSizedEntry (k, Json.str s) = true := h
              simpa [idSizedEntry, hres, hdec] using h2
            rcases Bool.or_eq_true_iff.mp hh with h16 | h8
            · exact Or.inl (eq_of_beq h16)
            · exact Or.inr (eq_of_beq h8)
          have hnone : hexDecodeString (base64EncodeToString decoded) = none := by
            refine hexDecodeString_base64_pad_none decoded ?_
            rcases hlen with h16 | h8
            · exact Or.inl (by rw [h16])
            · exact Or.inr (by rw [h8])
          have h1 : transformEntry (k, Json.str s) = (k, Json.str (base64EncodeToString decoded)) := by
            simp [transformEntry, hres, hdec]
          have h2 : transformEntry (k, Json.str (base64EncodeToString decoded)) =
              (k, Json.str (base64EncodeToString decoded)) := by
            simp [transformEntry, hres, hnone]
          rw [h1, h2]
        | none =>
          have h1 : transformEntry (k, Json.str s) = (k, Json.str s) := by
            simp [transformEntry, hres, hdec]
          rw [h1, h1]
      | num n =>
        have h1 : transformEntry (k, Json.num n) = (k, Json.num n) := by
          simp [transformEntry, hres]
        rw [h1, h1]
      | bool b =>
        have h1 : transformEntry (k, Json.bool b) = (k, Json.bool b) := by
          simp [transformEntry, hres]
        rw [h1, h1]
      | null =>
        have h1 : transformEntry (k, Json.null) = (k, Json.null) := by
          simp [transformEntry, hres]
        rw [h1, h1]
      | arr items =>
        have h1 : transformEntry (k, Json.arr items) = (k, Json.arr items) := by
          simp [transformEntry, hres]
        rw [h1, h1]
      | obj kvs2 =>
        have h1 : transformEntry (k, Json.obj kvs2) = (k, Json.obj kvs2) := by
          simp [transformEntry, hres]
        rw [h1, h1]
    | false =>
      have hv : idSized v = true := by
        have h2 : idSizedEntry (k, v) = true := h
        simpa [idSizedEntry, hres] using h2
      have h1 : transformEntry (k, v) = (k, transformHexIdsToBase64 v) := by
        simp [transformEntry, hres]
      have h2 : transformEntry (k, transformHexIdsToBase64 v) =
          (k, transformHexIdsToBase64 (transformHexIdsToBase64 v)) := by
        simp [transformEntry, hres]
      rw [h1, h2, transformIdem_tree v hv]

theorem transformIdem_entries :
    ∀ kvs : List (String × Json), idSizedEntries kvs = true →
      transformEntries (transformEntries kvs) = transformEntries kvs
  | [], _ => rfl
  | (k, v) :: rest, h => by
    rw [idSizedEntries, Bool.and_eq_true] at h
    obtain ⟨hhead, hrest⟩ := h
    show transformEntry (transformEntry (k, v)) :: transformEntries (transformEntries rest) =
      transformEntry (k, v) :: transformEntries rest
    rw [transformIdem_entry (k, v) hhead, transformIdem_entries rest hrest]

theorem transformIdem_list :
    ∀ items : List Json, idSizedList items = true →
      transformList (transformList items) = transformList items
  | [], _ => rfl
  | v :: rest, h => by
    rw [idSizedList, Bool.and_eq_true] at h
    obtain ⟨hv, hrest⟩ := h
    show transformHexIdsToBase64 (transformHexIdsToBase64 v) ::
        transformList (transformList rest) =
      transformHexIdsToBase64 v :: transformList rest
    rw [transformIdem_tree v hv, transformIdem_list rest hrest]

end

/-- Claim C10: on identifier-sized trees — every string reached under a
reserved key either fails hex decoding or decodes to 16 or 8 bytes — the
identifier transform is idempotent: a second application leaves the tree
unchanged, because the standard base64 encoding of 16 or 8 bytes ends in
`=` padding, which never decodes as hexadecimal. -/
theorem C10_transform_idempotent (t : Json) (h : idSized t = true) :
    transformHexIdsToBase64 (transformHexIdsToBase64 t) = transformHexIdsToBase64 t :=
  transformIdem_tree t h

/-- Claim C10, witness: a span object carrying a 16-byte traceId and an
8-byte spanId in hex; the transform is idempotent on it. -/
theorem C10_transform_idempotent_witness :
    transformHexIdsToBase64 (transformHexIdsToBase64 (Json.obj [("resourceSpans",
      Json.arr [Json.obj [("traceId", Json.str "5B8EFFF798038103D269B633813FC60A"),
        ("spanId", Json.str "EEE19B7EC3C1B174")]])])) =
      transformHexIdsToBase64 (Json.obj [("resourceSpans",
        Json.arr [Json.obj [("traceId", Json.str "5B8EFFF798038103D269B633813FC60A"),
          ("spanId", Json.str "EEE19B7EC3C1B174")]])]) :=
  C10_transform_idempotent (Json.obj [("resourceSpans",
    Json.arr [Json.obj [("traceId", Json.str "5B8EFFF798038103D269B633813FC60A"),
      ("spanId", Json.str "EEE19B7EC3C1B174")]])]) rfl

/-- Parsed tree of the corrected end-to-end JSON body
`{"resourceSpans":[{"resource":{"attributes":[]},"scopeSpans":[{"spans":
[{"traceId":"5B8EFFF798038103D269B633813FC60A","spanId":
"EEE19B7EC3C1B174"}]}]}]}` (brackets balanced, 32-character traceId). -/
def exampleBody : Json :=
  Json.obj
    [("resourceSpans", Json.arr
      [Json.obj
        [("resource", Json.obj [("attributes", Json.arr [])]),
         ("scopeSpans", Json.arr
           [Json.obj
             [("spans", Json.arr
               [Json.obj
                 [("traceId", Json.str "5B8EFFF798038103D269B633813FC60A"),
                  ("spanId", Json.str "EEE19B7EC3C1B174")]])]])]])]

/-- Claim C4 (amended): the corrected body — brackets balanced and the
32-hex-character traceId `5B8EFFF798038103D269B633813FC60A` — posted as
`application/json`, with the upstream export and the response marshalling
succeeding, decodes to a span whose trace identifier equals the raw bytes
of that hex string (and span identifier the bytes of its hex string),
the enforced resource carries exactly the configured override attributes
(its original attribute list is empty), the call is forwarded, and the
response is 200 with content type `application/json`. -/
theorem C4_end_to_end (component fullVersion stage srcComponent : String) :
    traces (proxyAttributes component fullVersion stage srcComponent) "POST"
        "application/json" true (some exampleBody) pjDecodeRequest none true true =
      ⟨200, some "application/json", true, some
        ⟨[⟨some ⟨proxyAttributes component fullVersion stage srcComponent, 0⟩,
          [⟨[⟨[91, 142, 255, 247, 152, 3, 129, 3, 210, 105, 182, 51, 129, 63, 198, 10],
            [238, 225, 155, 126, 195, 193, 177, 116], [], ""⟩]⟩], ""⟩]⟩⟩ ∧
    hexDecodeString "5B8EFFF798038103D269B633813FC60A" =
      some [91, 142, 255, 247, 152, 3, 129, 3, 210, 105, 182, 51, 129, 63, 198, 10] ∧
    hexDecodeString "EEE19B7EC3C1B174" = some [238, 225, 155, 126, 195, 193, 177, 116] :=
  ⟨rfl, rfl, rfl⟩

/-- Claim C4, counterexample to the claim as stated: the quoted body's
traceId `5B8EFFF798038103D269B633813FC60` has 31 characters, so it fails
hexadecimal decoding (odd length) and has no "raw bytes"; the normalizer
leaves it unchanged, and the modelled protobuf-JSON byte decoding then
reads it as unpadded base64, producing a 23-byte identifier instead.
(The quoted body is, moreover, not valid JSON — `"scopeSpans":[` is never
closed — so the real handler would answer 400 before any decoding.) -/
theorem C4_quoted_hex_does_not_decode :
    hexDecodeString "5B8EFFF798038103D269B633813FC60" = none ∧
    transformEntries [("traceId", Json.str "5B8EFFF798038103D269B633813FC60")] =
      [("traceId", Json.str "5B8EFFF798038103D269B633813FC60")] ∧
    (∃ bs, base64DecodeString "5B8EFFF798038103D269B633813FC60" = some bs ∧
      bs.length = 23) :=
  ⟨rfl, rfl, ⟨[228, 31, 4, 20, 81, 123, 247, 205, 55, 243, 93, 55, 15, 110, 189, 7,
    173, 247, 243, 93, 197, 11, 173], rfl, rfl⟩⟩
